import Mathlib

/-!
Verification of the instruction-set-architecture metadata model from
`lib/cretonne/meta/cdsl/isa.py`: the `TargetISA` / `CPUMode` / `EncRecipe` /
`Encoding` data model, the construction-time validation of recipes and
encodings, and the three finishing passes that number recipes, instruction
predicates and register classes.

Python object state is embedded as explicit state passing: each `Encoding`
stores the index (`recipe : Nat`) of its recipe in the ISA's recipe store
(`TargetISA.recipes`), modelling the shared object reference, and the mutable
`number` fields written onto shared recipe / predicate objects during
`finish()` are carried as the `number` field of the stored recipes and as the
`predNumbers` association list on the ISA state.  Fallible constructors
(Python `assert`) return `Except`, with the error names taken from the spec's
error taxonomy.  External collaborators that are not part of `isa.py`
(instruction formats, predicate nodes, register banks, the settings group)
are modelled from the spec, as marked on their doc comments.
-/

set_option maxHeartbeats 1000000

namespace Cretonne

/-- Modelled from the spec: instruction formats live in `instructions.py`,
which is not part of the analysed source; the core only consumes the
variable-length-operand-list flag (`has_value_list`) and the fixed
value-operand count (`num_value_operands`). -/
structure InstructionFormat where
  name : String
  has_value_list : Bool
  num_value_operands : Nat
deriving DecidableEq

/-- Modelled from the spec: predicate expression trees live in
`predicates.py`, which is not part of the analysed source; the core only
consumes AND-combination and an evaluation-context accessor.  Leaves carry
their evaluation context (an instruction format) and a distinguishing id;
`and` nodes are the conjunctions produced by `And.combine`. -/
inductive PredNode where
  | base (ctx : InstructionFormat) (id : Nat)
  | and (a b : PredNode)
deriving DecidableEq

/-- Modelled from the spec: `predicate_context` of `predicates.py` is not
part of the analysed source; it returns the evaluation context of a
predicate, which for a recipe's instruction predicate must equal the
recipe's format.  A conjunction evaluates in the context of its operands. -/
def PredNode.predicate_context : PredNode → InstructionFormat
  | .base ctx _ => ctx
  | .and a _ => a.predicate_context

/-- Modelled from the spec: `And.combine` of `predicates.py` is not part of
the analysed source; the spec says AND with an absent predicate returns the
other operand unchanged, and AND of two present predicates is a conjunction
node. -/
def And.combine : Option PredNode → Option PredNode → Option PredNode
  | none, y => y
  | some x, none => some x
  | some x, some y => some (PredNode.and x y)

/-- An operand constraint for a recipe: a register class, a fixed register,
an integer tying the operand to a value operand, or any other Python value
(rejected by validation). -/
inductive OperandConstraint where
  | regClass (name : String)
  | register (name : String)
  | tied (i : Int)
  | other (name : String)
deriving DecidableEq

/-- The `ins` / `outs` argument of a recipe: either a single constraint or a
tuple of constraints (`_verify_constraints` normalizes a single value to a
one-element tuple). -/
inductive ConstraintSeq where
  | single (c : OperandConstraint)
  | tuple (cs : List OperandConstraint)
deriving DecidableEq

/-- The tuple-normalization performed at the top of `_verify_constraints`. -/
def normalizeSeq : ConstraintSeq → List OperandConstraint
  | .single c => [c]
  | .tuple cs => cs

/-- The spec's error taxonomy for `EncRecipe` construction (the source uses
bare assertions; the spec names the error for each one). -/
inductive RecipeError where
  | SizeError
  | PredicateContextError
  | ConstraintError
  | ArityError
deriving DecidableEq

/-- The spec's error taxonomy for `Encoding` construction. -/
inductive EncodingError where
  | FormatMismatchError
  | BranchRangeError
deriving DecidableEq

/-- An encoding recipe (`EncRecipe` in `isa.py`).  `number` is the mutable
field assigned by `TargetISA._collect_encoding_recipes`; it is `none` at
construction time. -/
structure EncRecipe where
  name : String
  format : InstructionFormat
  size : Int
  ins : List OperandConstraint
  outs : List OperandConstraint
  branch_range : Option (Int × Int)
  instp : Option PredNode
  isap : Option PredNode
  number : Option Nat
deriving DecidableEq

/-- The per-constraint body of `EncRecipe._verify_constraints`: an integer
constraint must be non-negative and, for a fixed-arity format, below the
format's value-operand count; every other constraint must be a register
class or a fixed register. -/
def constraintOk (format : InstructionFormat) : OperandConstraint → Bool
  | .tied i =>
      decide (0 ≤ i) &&
        (format.has_value_list || decide (i < (format.num_value_operands : Int)))
  | .regClass _ => true
  | .register _ => true
  | .other _ => false

/-- `EncRecipe._verify_constraints`: normalize the argument to a tuple and
check every constraint. -/
def EncRecipe.verify_constraints (format : InstructionFormat) (seq : ConstraintSeq) :
    Except RecipeError (List OperandConstraint) :=
  let cs := normalizeSeq seq
  if cs.all (constraintOk format) then .ok cs else .error .ConstraintError

/-- The context check `instp.predicate_context() == format` performed by
`EncRecipe.__init__` when an instruction predicate is supplied. -/
def instpContextOk (instp : Option PredNode) (format : InstructionFormat) : Bool :=
  match instp with
  | some p => decide (p.predicate_context = format)
  | none => true

/-- `EncRecipe.__init__`: checks `size >= 0`, the instruction-predicate
context, the `ins` constraints, the `ins` arity for fixed-arity formats, and
the `outs` constraints, in source order; on success the recipe is built with
`number` unset. -/
def EncRecipe.construct (name : String) (format : InstructionFormat) (size : Int)
    (ins outs : ConstraintSeq) (branch_range : Option (Int × Int))
    (instp isap : Option PredNode) : Except RecipeError EncRecipe :=
  if size < 0 then .error .SizeError
  else if instpContextOk instp format = false then .error .PredicateContextError
  else match EncRecipe.verify_constraints format ins with
  | .error e => .error e
  | .ok ins' =>
    if format.has_value_list = false ∧ ins'.length ≠ format.num_value_operands then
      .error .ArityError
    else match EncRecipe.verify_constraints format outs with
    | .error e => .error e
    | .ok outs' =>
      .ok { name := name, format := format, size := size, ins := ins', outs := outs',
            branch_range := branch_range, instp := instp, isap := isap, number := none }

/-- Modelled from the spec: concrete value types live in `types.py`, which is
not part of the analysed source; the core only passes them through as the
resolved type-variable bindings of an encoding. -/
structure ValueType where
  name : String
deriving DecidableEq

/-- An instruction, as consumed by the core: its format and its branch flag
(`Instruction` lives in `instructions.py`; only these fields are read). -/
structure Instruction where
  name : String
  format : InstructionFormat
  is_branch : Bool
deriving DecidableEq

/-- Modelled from the spec: the `inst` argument of `Encoding.__init__` is
either a (possibly type-bound) instruction or an `Apply` expression;
`MaybeBoundInst.fully_bound` and `Apply.inst_predicate` live in
`instructions.py` / `ast.py`, which are not part of the analysed source.
The spec says an applied form resolves to its base instruction, its resolved
type-variable bindings and the instruction predicate implied by its concrete
operands, while a bound form yields its instruction and type variables
directly. -/
inductive InstSpec where
  | bound (inst : Instruction) (typevars : List ValueType)
  | apply (inst : Instruction) (typevars : List ValueType) (instPredicate : Option PredNode)
deriving DecidableEq

/-- The instruction resolved from an `InstSpec` (`self.inst` in
`Encoding.__init__`). -/
def InstSpec.resolvedInst : InstSpec → Instruction
  | .bound i _ => i
  | .apply i _ _ => i

/-- The type variables resolved from an `InstSpec` (`self.typevars` in
`Encoding.__init__`). -/
def InstSpec.resolvedTypevars : InstSpec → List ValueType
  | .bound _ tvs => tvs
  | .apply _ tvs _ => tvs

/-- The caller/derived instruction predicate after the `Apply` branch of
`Encoding.__init__`: for an applied form the caller-supplied predicate is
AND-combined with the predicate implied by the concrete operands. -/
def InstSpec.resolvedInstp (spec : InstSpec) (instp : Option PredNode) : Option PredNode :=
  match spec with
  | .bound _ _ => instp
  | .apply _ _ dp => And.combine instp dp

/-- An encoding for a concrete instruction (`Encoding` in `isa.py`).
`cpumode` is the name of the owning CPU mode (a back-reference in the
source) and `recipe` is the index of the shared recipe object in the owning
ISA's recipe store. -/
structure Encoding where
  cpumode : String
  inst : Instruction
  typevars : List ValueType
  recipe : Nat
  encbits : Nat
  instp : Option PredNode
  isap : Option PredNode
deriving DecidableEq

/-- `Encoding.__init__`: resolve the instruction argument, check that the
instruction's format matches the recipe's format, check that a branch
instruction gets a recipe with a branch range, then store the recipe
reference, the encoding bits and the AND-combined predicates.  `recipeId`
models the stored object reference to `recipe`. -/
def Encoding.construct (cpumode : String) (inst : InstSpec) (recipeId : Nat)
    (recipe : EncRecipe) (encbits : Nat) (instp isap : Option PredNode) :
    Except EncodingError Encoding :=
  let inst0 := inst.resolvedInst
  let typevars := inst.resolvedTypevars
  let instp1 := inst.resolvedInstp instp
  if inst0.format ≠ recipe.format then .error .FormatMismatchError
  else if inst0.is_branch = true ∧ recipe.branch_range = none then .error .BranchRangeError
  else .ok { cpumode := cpumode, inst := inst0, typevars := typevars, recipe := recipeId,
             encbits := encbits, instp := And.combine recipe.instp instp1,
             isap := And.combine recipe.isap isap }

/-- `Encoding.ctrl_typevar`: the controlling type variable is the first
resolved type variable, or absent. -/
def Encoding.ctrl_typevar (e : Encoding) : Option ValueType :=
  e.typevars.head?

/-- A CPU mode (`CPUMode` in `isa.py`): a name, the name of the owning ISA
(the `isa` back-reference) and the insertion-ordered encoding list. -/
structure CPUMode where
  name : String
  isa : String
  encodings : List Encoding
deriving DecidableEq

/-- A register class (external collaborator from `registers.py`): the core
only consumes its mutable index, assigned during `finish()`. -/
structure RegClass where
  name : String
  index : Option Nat
deriving DecidableEq

/-- A register bank (external collaborator from `registers.py`): the core
only consumes its ordered class list and its index-assignment operation. -/
structure RegBank where
  name : String
  classes : List RegClass
deriving DecidableEq

/-- Assign consecutive indices starting at `k` to a list of register
classes. -/
def assignIndices : List RegClass → Nat → List RegClass
  | [], _ => []
  | c :: cs, k => { c with index := some k } :: assignIndices cs (k + 1)

/-- Modelled from the spec: `RegBank.finish_regclasses` lives in
`registers.py`, which is not part of the analysed source; the spec says it
assigns the bank's classes a contiguous block of indices starting at the
given first index, preserving declaration order. -/
def RegBank.finish_regclasses (bank : RegBank) (first : Nat) : RegBank :=
  { bank with classes := assignIndices bank.classes first }

/-- Modelled from the spec: the settings group lives in `settings.py`, which
is not part of the analysed source; the core only consumes its ISA-predicate
registration operation.  `numbered_predicates` holds the registered
predicates in registration order. -/
structure SettingGroup where
  numbered_predicates : List PredNode
deriving DecidableEq

/-- Modelled from the spec: `SettingGroup.number_predicate` of `settings.py`
is not part of the analysed source; the spec says registration is idempotent
from the caller's perspective and gives the predicate a bit position. -/
def SettingGroup.number_predicate (sg : SettingGroup) (p : PredNode) : SettingGroup :=
  if p ∈ sg.numbered_predicates then sg
  else { numbered_predicates := sg.numbered_predicates ++ [p] }

/-- The target ISA state (`TargetISA` in `isa.py`).  `recipes` is the store
of recipe objects referenced by index from encodings; `all_recipes` (indices
into the store) and `all_instps` are the derived collections computed by
`finish()`; `predNumbers` carries the mutable `number` fields written onto
the shared instruction-predicate objects by `_collect_predicates`. -/
structure TargetISA where
  name : String
  instruction_groups : List String
  settings : SettingGroup
  recipes : List EncRecipe
  cpumodes : List CPUMode
  regbanks : List RegBank
  all_recipes : List Nat
  all_instps : List PredNode
  predNumbers : List (PredNode × Nat)
deriving DecidableEq

/-- Write `number := some n` onto the recipe stored at index `id` (the
assignment `recipe.number = len(rcps)` on a shared recipe object). -/
def setRecipeNumber : List EncRecipe → Nat → Nat → List EncRecipe
  | [], _, _ => []
  | r :: rs, 0, n => { r with number := some n } :: rs
  | r :: rs, id + 1, n => r :: setRecipeNumber rs id n

/-- Write `number := n` onto the predicate object `p` (the assignment
`instp.number = len(instps)`), represented in the association list of
predicate numbers. -/
def setPredNumber : List (PredNode × Nat) → PredNode → Nat → List (PredNode × Nat)
  | [], p, n => [(p, n)]
  | (q, m) :: rest, p, n =>
      if q = p then (q, n) :: rest else (q, m) :: setPredNumber rest p n

/-- Read the `number` field of the predicate object `p`. -/
def lookupPred : List (PredNode × Nat) → PredNode → Option Nat
  | [], _ => none
  | (q, m) :: rest, p => if q = p then some m else lookupPred rest p

/-- The loop body of `_collect_encoding_recipes`, acting on the recipe id
`recipe = enc.recipe`: state is (recipe store, `rcps` seen-set in insertion
order, `all_recipes`). -/
def rNatStep (st : List EncRecipe × List Nat × List Nat) (recipe : Nat) :
    List EncRecipe × List Nat × List Nat :=
  if recipe ∈ st.2.1 then st
  else (setRecipeNumber st.1 recipe st.2.1.length, st.2.1 ++ [recipe], st.2.2 ++ [recipe])

/-- The per-encoding step of `_collect_encoding_recipes`. -/
def recipeEncStep (st : List EncRecipe × List Nat × List Nat) (enc : Encoding) :
    List EncRecipe × List Nat × List Nat :=
  rNatStep st enc.recipe

/-- `TargetISA._collect_encoding_recipes`: iterate CPU modes in insertion
order and each mode's encodings in insertion order; number each not-yet-seen
recipe with the running set size and append it to `all_recipes`. -/
def TargetISA.collect_encoding_recipes (isa : TargetISA) : TargetISA :=
  let st := isa.cpumodes.foldl (fun st m => m.encodings.foldl recipeEncStep st)
    (isa.recipes, [], [])
  { isa with recipes := st.1, all_recipes := st.2.2 }

/-- The fold state of `_collect_predicates`: the predicate-number fields, the
`instps` seen-set in insertion order, `all_instps`, and the settings group. -/
structure PredPassState where
  predNumbers : List (PredNode × Nat)
  instps : List PredNode
  all_instps : List PredNode
  settings : SettingGroup
deriving DecidableEq

/-- The per-encoding step of `_collect_predicates`: number and collect a
not-yet-seen instruction predicate, then register the encoding's ISA
predicate with the settings group. -/
def predEncStep (st : PredPassState) (enc : Encoding) : PredPassState :=
  let st1 :=
    match enc.instp with
    | some instp =>
      if instp ∈ st.instps then st
      else
        { st with
          predNumbers := setPredNumber st.predNumbers instp st.instps.length,
          instps := st.instps ++ [instp],
          all_instps := st.all_instps ++ [instp] }
    | none => st
  match enc.isap with
  | some isap => { st1 with settings := st1.settings.number_predicate isap }
  | none => st1

/-- `TargetISA._collect_predicates`: iterate CPU modes and encodings in
insertion order, numbering instruction predicates in first-use order and
registering every encoding's ISA predicate with the settings group. -/
def TargetISA.collect_predicates (isa : TargetISA) : TargetISA :=
  let st := isa.cpumodes.foldl (fun st m => m.encodings.foldl predEncStep st)
    ⟨isa.predNumbers, [], [], isa.settings⟩
  { isa with
    predNumbers := st.predNumbers,
    all_instps := st.all_instps,
    settings := st.settings }

/-- `TargetISA._collect_regclasses`: iterate register banks in insertion
order, give each bank's classes a block starting at the running index and
advance the index by the bank's class count. -/
def TargetISA.collect_regclasses (isa : TargetISA) : TargetISA :=
  let st := isa.regbanks.foldl
    (fun st bank =>
      let bank' := bank.finish_regclasses st.2
      (st.1 ++ [bank'], st.2 + bank'.classes.length))
    (([] : List RegBank), 0)
  { isa with regbanks := st.1 }

/-- `TargetISA.finish`: run the three collection passes in source order and
return the updated ISA. -/
def TargetISA.finish (isa : TargetISA) : TargetISA :=
  isa.collect_encoding_recipes.collect_predicates.collect_regclasses

/-- The encodings of an ISA in scan order: CPU modes in ISA-insertion order,
each mode's encodings in insertion order. -/
def TargetISA.encSeq (isa : TargetISA) : List Encoding :=
  (isa.cpumodes.map CPUMode.encodings).flatten

/-- The recipe references (store indices) of all encodings, in scan order. -/
def TargetISA.recipeRefs (isa : TargetISA) : List Nat :=
  isa.encSeq.map Encoding.recipe

/-- The instruction predicates attached to encodings, in scan order. -/
def TargetISA.instpRefs (isa : TargetISA) : List PredNode :=
  isa.encSeq.filterMap Encoding.instp

/-- The ISA predicates attached to encodings, in scan order. -/
def TargetISA.isapRefs (isa : TargetISA) : List PredNode :=
  isa.encSeq.filterMap Encoding.isap

/-- Write `number := k, k+1, ...` onto the recipe store at the listed
indices, in order: the sequence of `recipe.number` assignments performed by
`_collect_encoding_recipes` once the first-occurrence order is known. -/
def applyRecipeNumbersFrom : List EncRecipe → Nat → List Nat → List EncRecipe
  | rs, _, [] => rs
  | rs, k, id :: ids => applyRecipeNumbersFrom (setRecipeNumber rs id k) (k + 1) ids

/-- Write `number := k, k+1, ...` onto the listed predicate objects, in
order: the sequence of `instp.number` assignments performed by
`_collect_predicates` once the first-use order is known. -/
def applyPredNumbersFrom : List (PredNode × Nat) → Nat → List PredNode → List (PredNode × Nat)
  | m, _, [] => m
  | m, k, p :: ps => applyPredNumbersFrom (setPredNumber m p k) (k + 1) ps

/-- The register banks after `_collect_regclasses`, with index blocks
starting at `k`. -/
def assignBanks : List RegBank → Nat → List RegBank
  | [], _ => []
  | b :: bs, k =>
      b.finish_regclasses k ::
        assignBanks bs (k + (b.finish_regclasses k).classes.length)

/-- A recipe with its mutable `number` field cleared, for frame
conditions. -/
def EncRecipe.clearNumber (r : EncRecipe) : EncRecipe :=
  { r with number := none }

/-- A register class with its mutable `index` field cleared, for frame
conditions. -/
def RegClass.clearIndex (c : RegClass) : RegClass :=
  { c with index := none }

/-- The validation condition on a single operand constraint, stated as in
the spec: an integer constraint is non-negative and, for a format without a
variable-length operand list, strictly below the format's value-operand
count; every non-integer constraint is a register class or a fixed
register.  Spec-side counterpart of `constraintOk`, used to compare the
code's validation against the spec's words. -/
def ConstraintValid (format : InstructionFormat) : OperandConstraint → Prop
  | .tied i => 0 ≤ i ∧ (format.has_value_list = false → i < (format.num_value_operands : Int))
  | .regClass _ => True
  | .register _ => True
  | .other _ => False

/-- A two-operand instruction format with fixed arity, for concrete
examples. -/
def fmtBinary : InstructionFormat :=
  { name := "Binary", has_value_list := false, num_value_operands := 2 }

/-- A zero-operand branch format, for concrete examples. -/
def fmtJump : InstructionFormat :=
  { name := "Jump", has_value_list := false, num_value_operands := 0 }

/-- A register-class operand constraint, for concrete examples. -/
def gprConstraint : OperandConstraint := OperandConstraint.regClass "GPR"

/-- A concrete recipe for `fmtBinary`. -/
def recipeR1 : EncRecipe :=
  { name := "R1", format := fmtBinary, size := 4, ins := [gprConstraint, gprConstraint],
    outs := [gprConstraint], branch_range := none, instp := none, isap := none,
    number := none }

/-- A second concrete recipe for `fmtBinary`. -/
def recipeR2 : EncRecipe :=
  { recipeR1 with name := "R2" }

/-- A concrete recipe referenced by no encoding. -/
def recipeUnused : EncRecipe :=
  { recipeR1 with name := "R3" }

/-- A concrete non-branch instruction of format `fmtBinary`. -/
def instAdd : Instruction :=
  { name := "iadd", format := fmtBinary, is_branch := false }

/-- A second concrete non-branch instruction of format `fmtBinary`. -/
def instSub : Instruction :=
  { name := "isub", format := fmtBinary, is_branch := false }

/-- A concrete branch instruction of format `fmtJump`. -/
def instJump : Instruction :=
  { name := "jump", format := fmtJump, is_branch := true }

/-- A concrete value type. -/
def tyI32 : ValueType := { name := "i32" }

/-- A concrete instruction predicate. -/
def predP0 : PredNode := PredNode.base fmtBinary 0

/-- A concrete ISA predicate. -/
def predIsaP : PredNode := PredNode.base fmtBinary 7

/-- A concrete encoding of `instAdd` by recipe 0 in mode M1. -/
def encAdd : Encoding :=
  { cpumode := "M1", inst := instAdd, typevars := [tyI32], recipe := 0, encbits := 16,
    instp := none, isap := none }

/-- A concrete encoding of `instSub` by recipe 1 in mode M1, with an
instruction predicate and an ISA predicate. -/
def encSub : Encoding :=
  { cpumode := "M1", inst := instSub, typevars := [tyI32], recipe := 1, encbits := 17,
    instp := some predP0, isap := some predIsaP }

/-- A concrete encoding in mode M2 reusing recipe 0 and the predicate of
`encSub`. -/
def encAdd2 : Encoding :=
  { cpumode := "M2", inst := instAdd, typevars := [tyI32], recipe := 0, encbits := 18,
    instp := some predP0, isap := none }

/-- A concrete ISA with two CPU modes, three encodings sharing two of its
three recipes, and two register banks, used as the evaluation input of the
claim theorems. -/
def exampleISA : TargetISA :=
  { name := "x86", instruction_groups := ["base"],
    settings := { numbered_predicates := [] },
    recipes := [recipeR1, recipeR2, recipeUnused],
    cpumodes :=
      [{ name := "M1", isa := "x86", encodings := [encAdd, encSub] },
       { name := "M2", isa := "x86", encodings := [encAdd2] }],
    regbanks :=
      [{ name := "IntRegs",
         classes := [{ name := "GPR", index := none }, { name := "FPR", index := none }] },
       { name := "FloatRegs", classes := [{ name := "XMM", index := none }] }],
    all_recipes := [], all_instps := [], predNumbers := [] }

/-- A concrete branch-format recipe without a branch range. -/
def recipeJump0 : EncRecipe :=
  { name := "J0", format := fmtJump, size := 2, ins := [], outs := [],
    branch_range := none, instp := none, isap := none, number := none }

/-- A concrete recipe-level instruction predicate. -/
def predRi : PredNode := PredNode.base fmtBinary 1

/-- A concrete caller-supplied instruction predicate. -/
def predCp : PredNode := PredNode.base fmtBinary 2

/-- A concrete operand-implied instruction predicate of an applied form. -/
def predDp : PredNode := PredNode.base fmtBinary 3

/-- A concrete recipe-level ISA predicate. -/
def predSi : PredNode := PredNode.base fmtBinary 4

/-- A concrete caller-supplied ISA predicate. -/
def predCs : PredNode := PredNode.base fmtBinary 5

/-- A concrete recipe carrying both a recipe-level instruction predicate and
a recipe-level ISA predicate. -/
def recipeC8 : EncRecipe :=
  { recipeR1 with instp := some predRi, isap := some predSi }

/-- The encoding produced by constructing an applied-form encoding of
`instAdd` by `recipeC8` with caller predicates `predCp` / `predCs` and
operand-implied predicate `predDp`. -/
def encodingC8 : Encoding :=
  { cpumode := "M1", inst := instAdd, typevars := [tyI32], recipe := 0, encbits := 16,
    instp := some (PredNode.and predRi (PredNode.and predCp predDp)),
    isap := some (PredNode.and predSi predCs) }

/-- Insertion into a Python set modelled as a duplicate-free list in
insertion order: both `rcps` and `instps` evolve this way. -/
def seenInsert {α : Type*} [DecidableEq α] (acc : List α) (x : α) : List α :=
  if x ∈ acc then acc else acc ++ [x]

/-- The first occurrences of a list's elements, in order of first
occurrence: the spec-side description of the order of `all_recipes` and
`all_instps` ("ordered by first occurrence when scanning CPU modes in
ISA-insertion order and each mode's encodings in insertion order"). -/
def firstOccurrences {α : Type*} [DecidableEq α] : List α → List α
  | [] => []
  | x :: xs => x :: (firstOccurrences xs).filter (fun y => !decide (y = x))

section SeenLemmas

variable {α : Type*} [DecidableEq α]

theorem foldl_seenInsert_append (l : List α) (acc : List α) :
    ∃ rest, l.foldl seenInsert acc = acc ++ rest := by
  induction l generalizing acc with
  | nil => exact ⟨[], by simp⟩
  | cons x xs ih =>
    by_cases hx : x ∈ acc
    · obtain ⟨rest, hrest⟩ := ih acc
      exact ⟨rest, by simpa [seenInsert, hx] using hrest⟩
    · obtain ⟨rest, hrest⟩ := ih (acc ++ [x])
      exact ⟨[x] ++ rest, by simp [seenInsert, hx, hrest]⟩

theorem foldl_seenInsert_eq (l : List α) (acc : List α) :
    l.foldl seenInsert acc
      = acc ++ (firstOccurrences l).filter (fun y => !decide (y ∈ acc)) := by
  induction l generalizing acc with
  | nil => simp [firstOccurrences]
  | cons x xs ih =>
    by_cases hx : x ∈ acc
    · have h1 : (x :: xs).foldl seenInsert acc = xs.foldl seenInsert acc := by
        simp [seenInsert, hx]
      rw [h1, ih]
      have h2 : ((firstOccurrences xs).filter (fun y => !decide (y = x))).filter
            (fun y => !decide (y ∈ acc))
          = (firstOccurrences xs).filter (fun y => !decide (y ∈ acc)) := by
        rw [List.filter_filter]
        refine List.filter_congr ?_
        intro y _
        by_cases hy : y ∈ acc
        · simp [hy]
        · have : ¬ (y = x) := fun h => hy (h ▸ hx)
          simp [hy, this]
      simp [firstOccurrences, hx, h2]
    · have h1 : (x :: xs).foldl seenInsert acc = xs.foldl seenInsert (acc ++ [x]) := by
        simp [seenInsert, hx]
      rw [h1, ih]
      have h2 : (firstOccurrences xs).filter (fun y => !decide (y ∈ acc ++ [x]))
          = ((firstOccurrences xs).filter (fun y => !decide (y = x))).filter
              (fun y => !decide (y ∈ acc)) := by
        rw [List.filter_filter]
        refine List.filter_congr ?_
        intro y _
        by_cases hy : y ∈ acc
        · simp [hy]
        · by_cases hyx : y = x <;> simp [hy, hyx]
      simp [firstOccurrences, hx, h2, List.append_assoc]

theorem foldl_seenInsert_nil (l : List α) :
    l.foldl seenInsert ([] : List α) = firstOccurrences l := by
  rw [foldl_seenInsert_eq]
  simp

theorem mem_firstOccurrences {y : α} {l : List α} :
    y ∈ firstOccurrences l ↔ y ∈ l := by
  induction l with
  | nil => simp [firstOccurrences]
  | cons x xs ih =>
    by_cases hyx : y = x
    · simp [firstOccurrences, hyx]
    · simp [firstOccurrences, hyx, List.mem_filter, ih]

theorem nodup_firstOccurrences (l : List α) : (firstOccurrences l).Nodup := by
  induction l with
  | nil => simp [firstOccurrences]
  | cons x xs ih =>
    rw [firstOccurrences, List.nodup_cons]
    constructor
    · intro hmem
      rcases List.mem_filter.mp hmem with ⟨_, hpred⟩
      simp at hpred
    · exact List.Nodup.filter _ ih

theorem count_firstOccurrences_of_mem {y : α} {l : List α} (h : y ∈ l) :
    (firstOccurrences l).count y = 1 :=
  List.count_eq_one_of_mem (nodup_firstOccurrences l) (mem_firstOccurrences.mpr h)

theorem foldl_seenInsert_drop_cons (x : α) (xs : List α) (seen : List α) :
    (xs.foldl seenInsert (seen ++ [x])).drop seen.length
      = x :: (xs.foldl seenInsert (seen ++ [x])).drop (seen.length + 1) := by
  obtain ⟨rest, hrest⟩ := foldl_seenInsert_append xs (seen ++ [x])
  rw [hrest]
  have h1 : seen ++ [x] ++ rest = seen ++ ([x] ++ rest) := by
    simp [List.append_assoc]
  have h2 : (seen ++ ([x] ++ rest)).drop seen.length = [x] ++ rest :=
    List.drop_left seen ([x] ++ rest)
  have h3 : (seen ++ [x] ++ rest).drop (seen.length + 1) = rest := by
    have : (seen ++ [x]).length = seen.length + 1 := by simp
    rw [← this]
    exact List.drop_left (seen ++ [x]) rest
  rw [h1, h2, ← h1, h3]
  rfl

end SeenLemmas

theorem setRecipeNumber_getElem?_ne (rs : List EncRecipe) {id id' : Nat} (n : Nat)
    (h : id' ≠ id) : (setRecipeNumber rs id n)[id']? = rs[id']? := by
  induction rs generalizing id id' with
  | nil => rfl
  | cons r rs ih =>
    cases id with
    | zero =>
      cases id' with
      | zero => exact absurd rfl h
      | succ j => simp [setRecipeNumber]
    | succ i =>
      cases id' with
      | zero => simp [setRecipeNumber]
      | succ j =>
        simp only [setRecipeNumber, List.getElem?_cons_succ]
        exact ih (fun hj => h (by rw [hj]))

theorem setRecipeNumber_getElem?_self (rs : List EncRecipe) (id n : Nat) :
    (setRecipeNumber rs id n)[id]?
      = (rs[id]?).map (fun r => { r with number := some n }) := by
  induction rs generalizing id with
  | nil => cases id <;> rfl
  | cons r rs ih =>
    cases id with
    | zero => simp [setRecipeNumber]
    | succ i => simpa [setRecipeNumber] using ih i

theorem setRecipeNumber_map_clearNumber (rs : List EncRecipe) (id n : Nat) :
    (setRecipeNumber rs id n).map EncRecipe.clearNumber
      = rs.map EncRecipe.clearNumber := by
  induction rs generalizing id with
  | nil => rfl
  | cons r rs ih =>
    cases id with
    | zero => simp [setRecipeNumber, EncRecipe.clearNumber]
    | succ i => simpa [setRecipeNumber] using ih i

theorem setRecipeNumber_eq_self {rs : List EncRecipe} {id n : Nat}
    (h : ∀ r, rs[id]? = some r → r.number = some n) :
    setRecipeNumber rs id n = rs := by
  induction rs generalizing id with
  | nil => rfl
  | cons r rs ih =>
    cases id with
    | zero =>
      have hr : r.number = some n := h r (by simp)
      have : ({ r with number := some n } : EncRecipe) = r := by
        cases r
        simp_all
      simp [setRecipeNumber, this]
    | succ i =>
      have hx : ∀ r', rs[i]? = some r' → r'.number = some n :=
        fun r' hr' => h r' (by simpa using hr')
      have := ih hx
      simp [setRecipeNumber, this]

theorem applyRecipeNumbersFrom_getElem?_not_mem (rs : List EncRecipe) (k : Nat)
    {ids : List Nat} {id : Nat} (h : id ∉ ids) :
    (applyRecipeNumbersFrom rs k ids)[id]? = rs[id]? := by
  induction ids generalizing rs k with
  | nil => rfl
  | cons id0 ids ih =>
    have h0 : id ≠ id0 := fun he => h (he ▸ List.mem_cons_self id0 ids)
    have h1 : id ∉ ids := fun hm => h (List.mem_cons_of_mem _ hm)
    rw [applyRecipeNumbersFrom, ih _ _ h1, setRecipeNumber_getElem?_ne _ _ h0]

theorem applyRecipeNumbersFrom_getElem?_of_nodup (rs : List EncRecipe) (k : Nat)
    {ids : List Nat} (hnd : ids.Nodup) {i id : Nat} (h : ids[i]? = some id) :
    (applyRecipeNumbersFrom rs k ids)[id]?
      = (rs[id]?).map (fun r => { r with number := some (k + i) }) := by
  induction ids generalizing rs k i with
  | nil => simp at h
  | cons id0 ids ih =>
    rcases List.nodup_cons.mp hnd with ⟨h0, hnd'⟩
    cases i with
    | zero =>
      have hid : id = id0 := by simpa using h.symm
      subst hid
      rw [applyRecipeNumbersFrom, applyRecipeNumbersFrom_getElem?_not_mem _ _ h0,
        setRecipeNumber_getElem?_self]
      simp
    | succ i =>
      have hmem : id ∈ ids := List.getElem?_mem (by simpa using h)
      have hne : id ≠ id0 := fun he => h0 (he ▸ hmem)
      rw [applyRecipeNumbersFrom, ih _ _ hnd' (by simpa using h),
        setRecipeNumber_getElem?_ne _ _ hne]
      have : k + (i + 1) = k + 1 + i := by omega
      rw [this]

theorem applyRecipeNumbersFrom_map_clearNumber (rs : List EncRecipe) (k : Nat)
    (ids : List Nat) :
    (applyRecipeNumbersFrom rs k ids).map EncRecipe.clearNumber
      = rs.map EncRecipe.clearNumber := by
  induction ids generalizing rs k with
  | nil => rfl
  | cons id0 ids ih =>
    rw [applyRecipeNumbersFrom, ih, setRecipeNumber_map_clearNumber]

theorem applyRecipeNumbersFrom_eq_self {rs : List EncRecipe} {k : Nat} {ids : List Nat}
    (h : ∀ i id, ids[i]? = some id → setRecipeNumber rs id (k + i) = rs) :
    applyRecipeNumbersFrom rs k ids = rs := by
  induction ids generalizing k with
  | nil => rfl
  | cons id0 ids ih =>
    have h0 : setRecipeNumber rs id0 k = rs := by
      simpa using h 0 id0 (by simp)
    rw [applyRecipeNumbersFrom, h0]
    exact ih (fun i id hi => by
      have := h (i + 1) id (by simpa using hi)
      simpa [Nat.add_assoc, Nat.add_comm 1 i] using this)

theorem applyRecipeNumbersFrom_idem (rs : List EncRecipe) {ids : List Nat}
    (hnd : ids.Nodup) :
    applyRecipeNumbersFrom (applyRecipeNumbersFrom rs 0 ids) 0 ids
      = applyRecipeNumbersFrom rs 0 ids := by
  refine applyRecipeNumbersFrom_eq_self (fun i id hi => ?_)
  refine setRecipeNumber_eq_self (fun r hr => ?_)
  rw [applyRecipeNumbersFrom_getElem?_of_nodup rs 0 hnd hi] at hr
  cases hrs : rs[id]? with
  | none => rw [hrs] at hr; simp at hr
  | some r0 =>
    rw [hrs] at hr
    have hr0 : ({ r0 with number := some (0 + i) } : EncRecipe) = r := by
      simpa using hr
    rw [← hr0]

theorem lookupPred_setPredNumber_self (m : List (PredNode × Nat)) (p : PredNode) (n : Nat) :
    lookupPred (setPredNumber m p n) p = some n := by
  induction m with
  | nil => simp [setPredNumber, lookupPred]
  | cons qm rest ih =>
    obtain ⟨q, v⟩ := qm
    by_cases hq : q = p
    · simp [setPredNumber, lookupPred, hq]
    · simp [setPredNumber, lookupPred, hq, ih]

theorem setPredNumber_eq_self {m : List (PredNode × Nat)} {p : PredNode} {n : Nat}
    (h : lookupPred m p = some n) : setPredNumber m p n = m := by
  induction m with
  | nil => simp [lookupPred] at h
  | cons qm rest ih =>
    obtain ⟨q, v⟩ := qm
    by_cases hq : q = p
    · have : v = n := by simpa [lookupPred, hq] using h
      simp [setPredNumber, hq, this]
    · have := ih (by simpa [lookupPred, hq] using h)
      simp [setPredNumber, hq, this]

theorem lookupPred_setPredNumber_ne (m : List (PredNode × Nat)) {p q : PredNode} (n : Nat)
    (h : q ≠ p) : lookupPred (setPredNumber m p n) q = lookupPred m q := by
  induction m with
  | nil => simp [setPredNumber, lookupPred, Ne.symm h]
  | cons rm rest ih =>
    obtain ⟨r, v⟩ := rm
    by_cases hr : r = p
    · subst hr
      simp [setPredNumber, lookupPred, Ne.symm h]
    · simp only [setPredNumber, if_neg hr, lookupPred]
      by_cases hrq : r = q <;> simp [hrq, ih]

theorem applyPredNumbersFrom_lookup_not_mem (m : List (PredNode × Nat)) (k : Nat)
    {ps : List PredNode} {q : PredNode} (h : q ∉ ps) :
    lookupPred (applyPredNumbersFrom m k ps) q = lookupPred m q := by
  induction ps generalizing m k with
  | nil => rfl
  | cons p0 ps ih =>
    have h0 : q ≠ p0 := fun he => h (he ▸ List.mem_cons_self p0 ps)
    have h1 : q ∉ ps := fun hm => h (List.mem_cons_of_mem _ hm)
    rw [applyPredNumbersFrom, ih _ _ h1, lookupPred_setPredNumber_ne _ _ h0]

theorem applyPredNumbersFrom_lookup_of_nodup (m : List (PredNode × Nat)) (k : Nat)
    {ps : List PredNode} (hnd : ps.Nodup) {i : Nat} {p : PredNode}
    (h : ps[i]? = some p) :
    lookupPred (applyPredNumbersFrom m k ps) p = some (k + i) := by
  induction ps generalizing m k i with
  | nil => simp at h
  | cons p0 ps ih =>
    rcases List.nodup_cons.mp hnd with ⟨h0, hnd'⟩
    cases i with
    | zero =>
      have hp : p = p0 := by simpa using h.symm
      subst hp
      rw [applyPredNumbersFrom, applyPredNumbersFrom_lookup_not_mem _ _ h0,
        lookupPred_setPredNumber_self]
      simp
    | succ i =>
      have hmem : p ∈ ps := List.getElem?_mem (by simpa using h)
      have hne : p ≠ p0 := fun he => h0 (he ▸ hmem)
      rw [applyPredNumbersFrom, ih _ _ hnd' (by simpa using h)]
      have : k + (i + 1) = k + 1 + i := by omega
      rw [this]

theorem applyPredNumbersFrom_eq_self {m : List (PredNode × Nat)} {k : Nat}
    {ps : List PredNode}
    (h : ∀ i p, ps[i]? = some p → setPredNumber m p (k + i) = m) :
    applyPredNumbersFrom m k ps = m := by
  induction ps generalizing k with
  | nil => rfl
  | cons p0 ps ih =>
    have h0 : setPredNumber m p0 k = m := by
      simpa using h 0 p0 (by simp)
    rw [applyPredNumbersFrom, h0]
    exact ih (fun i p hi => by
      have := h (i + 1) p (by simpa using hi)
      simpa [Nat.add_assoc, Nat.add_comm 1 i] using this)

theorem applyPredNumbersFrom_idem (m : List (PredNode × Nat)) {ps : List PredNode}
    (hnd : ps.Nodup) :
    applyPredNumbersFrom (applyPredNumbersFrom m 0 ps) 0 ps
      = applyPredNumbersFrom m 0 ps := by
  refine applyPredNumbersFrom_eq_self (fun i p hi => ?_)
  exact setPredNumber_eq_self (applyPredNumbersFrom_lookup_of_nodup m 0 hnd hi)

theorem mem_number_predicate_self (sg : SettingGroup) (p : PredNode) :
    p ∈ (sg.number_predicate p).numbered_predicates := by
  by_cases h : p ∈ sg.numbered_predicates <;>
    simp [SettingGroup.number_predicate, h]

theorem mem_number_predicate_mono {sg : SettingGroup} {q : PredNode} (p : PredNode)
    (h : q ∈ sg.numbered_predicates) :
    q ∈ (sg.number_predicate p).numbered_predicates := by
  by_cases hp : p ∈ sg.numbered_predicates <;>
    simp [SettingGroup.number_predicate, hp, h]

theorem number_predicate_eq_self {sg : SettingGroup} {p : PredNode}
    (h : p ∈ sg.numbered_predicates) : sg.number_predicate p = sg := by
  simp [SettingGroup.number_predicate, h]

theorem mem_foldl_number_predicate_mono {sg : SettingGroup} {l : List PredNode}
    {q : PredNode} (h : q ∈ sg.numbered_predicates) :
    q ∈ (l.foldl SettingGroup.number_predicate sg).numbered_predicates := by
  induction l generalizing sg with
  | nil => exact h
  | cons p l ih => exact ih (mem_number_predicate_mono p h)

theorem mem_foldl_number_predicate {sg : SettingGroup} {l : List PredNode}
    {q : PredNode} (h : q ∈ l) :
    q ∈ (l.foldl SettingGroup.number_predicate sg).numbered_predicates := by
  induction l generalizing sg with
  | nil => simp at h
  | cons p l ih =>
    rcases List.mem_cons.mp h with hq | h'
    · subst hq
      rw [List.foldl_cons]
      exact mem_foldl_number_predicate_mono (mem_number_predicate_self sg q)
    · exact ih h'

theorem foldl_number_predicate_eq_self {sg : SettingGroup} {l : List PredNode}
    (h : ∀ p ∈ l, p ∈ sg.numbered_predicates) :
    l.foldl SettingGroup.number_predicate sg = sg := by
  induction l with
  | nil => rfl
  | cons p l ih =>
    rw [List.foldl_cons, number_predicate_eq_self (h p (List.mem_cons_self p l))]
    exact ih (fun p' hp' => h p' (List.mem_cons_of_mem _ hp'))

theorem foldl_number_predicate_idem (sg : SettingGroup) (l : List PredNode) :
    l.foldl SettingGroup.number_predicate (l.foldl SettingGroup.number_predicate sg)
      = l.foldl SettingGroup.number_predicate sg :=
  foldl_number_predicate_eq_self (fun _ hp => mem_foldl_number_predicate hp)

theorem assignIndices_length (cs : List RegClass) (k : Nat) :
    (assignIndices cs k).length = cs.length := by
  induction cs generalizing k with
  | nil => rfl
  | cons c cs ih => simp [assignIndices, ih]

theorem assignIndices_map_index (cs : List RegClass) (k : Nat) :
    (assignIndices cs k).map RegClass.index = (List.range' k cs.length).map some := by
  induction cs generalizing k with
  | nil => rfl
  | cons c cs ih => simp [assignIndices, List.range'_succ, ih]

theorem assignIndices_map_clearIndex (cs : List RegClass) (k : Nat) :
    (assignIndices cs k).map RegClass.clearIndex = cs.map RegClass.clearIndex := by
  induction cs generalizing k with
  | nil => rfl
  | cons c cs ih => simp [assignIndices, RegClass.clearIndex, ih]

theorem assignIndices_idem (cs : List RegClass) (k : Nat) :
    assignIndices (assignIndices cs k) k = assignIndices cs k := by
  induction cs generalizing k with
  | nil => rfl
  | cons c cs ih => simp [assignIndices, ih]

theorem foldl_rNatStep_closed (refs : List Nat) (rs : List EncRecipe)
    (seen all : List Nat) :
    refs.foldl rNatStep (rs, seen, all)
      = (applyRecipeNumbersFrom rs seen.length
           ((refs.foldl seenInsert seen).drop seen.length),
         refs.foldl seenInsert seen,
         all ++ (refs.foldl seenInsert seen).drop seen.length) := by
  induction refs generalizing rs seen all with
  | nil => simp [applyRecipeNumbersFrom, List.drop_length]
  | cons x xs ih =>
    by_cases hx : x ∈ seen
    · have h1 : rNatStep (rs, seen, all) x = (rs, seen, all) := by
        simp [rNatStep, hx]
      have h2 : seenInsert seen x = seen := by simp [seenInsert, hx]
      simp only [List.foldl_cons, h1, h2]
      exact ih rs seen all
    · have h1 : rNatStep (rs, seen, all) x
          = (setRecipeNumber rs x seen.length, seen ++ [x], all ++ [x]) := by
        simp [rNatStep, hx]
      have h2 : seenInsert seen x = seen ++ [x] := by simp [seenInsert, hx]
      simp only [List.foldl_cons, h1, h2]
      rw [ih, foldl_seenInsert_drop_cons x xs seen]
      have hlen : (seen ++ [x]).length = seen.length + 1 := by simp
      rw [hlen, applyRecipeNumbersFrom]
      simp [List.append_assoc]

theorem nested_foldl_eq_flatten {σ : Type*} (f : σ → Encoding → σ)
    (modes : List CPUMode) (st : σ) :
    modes.foldl (fun st m => m.encodings.foldl f st) st
      = ((modes.map CPUMode.encodings).flatten).foldl f st := by
  induction modes generalizing st with
  | nil => rfl
  | cons m ms ih => simp [List.foldl_append, ih]

theorem collect_encoding_recipes_closed (isa : TargetISA) :
    isa.collect_encoding_recipes
      = { isa with
          recipes := applyRecipeNumbersFrom isa.recipes 0
            (firstOccurrences isa.recipeRefs),
          all_recipes := firstOccurrences isa.recipeRefs } := by
  have h1 : (((isa.cpumodes.map CPUMode.encodings).flatten)).foldl recipeEncStep
        ((isa.recipes, [], []) : List EncRecipe × List Nat × List Nat)
      = (isa.recipeRefs).foldl rNatStep (isa.recipes, [], []) := by
    rw [TargetISA.recipeRefs, TargetISA.encSeq, List.foldl_map]
    rfl
  simp only [TargetISA.collect_encoding_recipes]
  rw [nested_foldl_eq_flatten, h1, foldl_rNatStep_closed, foldl_seenInsert_nil]
  simp

theorem foldl_predEncStep_closed (encs : List Encoding) (m : List (PredNode × Nat))
    (seen all : List PredNode) (sg : SettingGroup) :
    encs.foldl predEncStep ⟨m, seen, all, sg⟩
      = ⟨applyPredNumbersFrom m seen.length
           (((encs.filterMap Encoding.instp).foldl seenInsert seen).drop seen.length),
         (encs.filterMap Encoding.instp).foldl seenInsert seen,
         all ++ ((encs.filterMap Encoding.instp).foldl seenInsert seen).drop seen.length,
         (encs.filterMap Encoding.isap).foldl SettingGroup.number_predicate sg⟩ := by
  induction encs generalizing m seen all sg with
  | nil => simp [applyPredNumbersFrom, List.drop_length]
  | cons e es ih =>
    rcases hip : e.instp with _ | p
    · rcases hq : e.isap with _ | q
      · have h1 : predEncStep ⟨m, seen, all, sg⟩ e = ⟨m, seen, all, sg⟩ := by
          simp [predEncStep, hip, hq]
        simp only [List.foldl_cons, h1, List.filterMap_cons, hip, hq]
        exact ih m seen all sg
      · have h1 : predEncStep ⟨m, seen, all, sg⟩ e
            = ⟨m, seen, all, sg.number_predicate q⟩ := by
          simp [predEncStep, hip, hq]
        simp only [List.foldl_cons, h1, List.filterMap_cons, hip, hq]
        exact ih m seen all (sg.number_predicate q)
    · by_cases hmem : p ∈ seen
      · have h2 : seenInsert seen p = seen := by simp [seenInsert, hmem]
        rcases hq : e.isap with _ | q
        · have h1 : predEncStep ⟨m, seen, all, sg⟩ e = ⟨m, seen, all, sg⟩ := by
            simp [predEncStep, hip, hq, hmem]
          simp only [List.foldl_cons, h1, List.filterMap_cons, hip, hq, h2]
          exact ih m seen all sg
        · have h1 : predEncStep ⟨m, seen, all, sg⟩ e
              = ⟨m, seen, all, sg.number_predicate q⟩ := by
            simp [predEncStep, hip, hq, hmem]
          simp only [List.foldl_cons, h1, List.filterMap_cons, hip, hq, h2]
          exact ih m seen all (sg.number_predicate q)
      · have h2 : seenInsert seen p = seen ++ [p] := by simp [seenInsert, hmem]
        have hlen : (seen ++ [p]).length = seen.length + 1 := by simp
        rcases hq : e.isap with _ | q
        · have h1 : predEncStep ⟨m, seen, all, sg⟩ e
              = ⟨setPredNumber m p seen.length, seen ++ [p], all ++ [p], sg⟩ := by
            simp [predEncStep, hip, hq, hmem]
          simp only [List.foldl_cons, h1, List.filterMap_cons, hip, hq, h2]
          rw [ih, foldl_seenInsert_drop_cons p (es.filterMap Encoding.instp) seen,
            hlen, applyPredNumbersFrom]
          simp [List.append_assoc]
        · have h1 : predEncStep ⟨m, seen, all, sg⟩ e
              = ⟨setPredNumber m p seen.length, seen ++ [p], all ++ [p],
                 sg.number_predicate q⟩ := by
            simp [predEncStep, hip, hq, hmem]
          simp only [List.foldl_cons, h1, List.filterMap_cons, hip, hq, h2]
          rw [ih, foldl_seenInsert_drop_cons p (es.filterMap Encoding.instp) seen,
            hlen, applyPredNumbersFrom]
          simp [List.append_assoc]

theorem collect_predicates_closed (isa : TargetISA) :
    isa.collect_predicates
      = { isa with
          predNumbers := applyPredNumbersFrom isa.predNumbers 0
            (firstOccurrences isa.instpRefs),
          all_instps := firstOccurrences isa.instpRefs,
          settings := isa.isapRefs.foldl SettingGroup.number_predicate isa.settings } := by
  simp only [TargetISA.collect_predicates]
  rw [nested_foldl_eq_flatten, foldl_predEncStep_closed]
  simp [TargetISA.instpRefs, TargetISA.isapRefs, TargetISA.encSeq, foldl_seenInsert_nil]

theorem foldl_regbank_closed (bs : List RegBank) (acc : List RegBank) (k : Nat) :
    bs.foldl
      (fun st bank =>
        let bank' := bank.finish_regclasses st.2
        (st.1 ++ [bank'], st.2 + bank'.classes.length))
      (acc, k)
      = (acc ++ assignBanks bs k, k + (bs.map (fun b => b.classes.length)).sum) := by
  induction bs generalizing acc k with
  | nil => simp [assignBanks]
  | cons b bs ih =>
    rw [List.foldl_cons]
    have hlen : (b.finish_regclasses k).classes.length = b.classes.length := by
      simp [RegBank.finish_regclasses, assignIndices_length]
    simp only []
    rw [ih]
    simp [assignBanks, hlen, List.append_assoc, Nat.add_assoc]

theorem collect_regclasses_closed (isa : TargetISA) :
    isa.collect_regclasses = { isa with regbanks := assignBanks isa.regbanks 0 } := by
  simp only [TargetISA.collect_regclasses]
  rw [foldl_regbank_closed]
  simp

theorem finish_closed (isa : TargetISA) :
    isa.finish
      = { isa with
          recipes := applyRecipeNumbersFrom isa.recipes 0
            (firstOccurrences isa.recipeRefs),
          all_recipes := firstOccurrences isa.recipeRefs,
          predNumbers := applyPredNumbersFrom isa.predNumbers 0
            (firstOccurrences isa.instpRefs),
          all_instps := firstOccurrences isa.instpRefs,
          settings := isa.isapRefs.foldl SettingGroup.number_predicate isa.settings,
          regbanks := assignBanks isa.regbanks 0 } := by
  rw [TargetISA.finish, collect_encoding_recipes_closed, collect_predicates_closed,
    collect_regclasses_closed]
  rfl

theorem recipeRefs_lt {isa : TargetISA}
    (hvalid : ∀ m ∈ isa.cpumodes, ∀ e ∈ m.encodings, e.recipe < isa.recipes.length)
    {id : Nat} (h : id ∈ isa.recipeRefs) : id < isa.recipes.length := by
  rw [TargetISA.recipeRefs] at h
  rcases List.mem_map.mp h with ⟨e, he, rfl⟩
  rw [TargetISA.encSeq] at he
  rcases List.mem_flatten.mp he with ⟨l, hl, hel⟩
  rcases List.mem_map.mp hl with ⟨mo, hmo, rfl⟩
  exact hvalid mo hmo e hel

/-- C1: after `finish()`, `all_recipes` lists exactly the recipes referenced
by at least one encoding, each exactly once however many encodings across
however many CPU modes share it, in first-occurrence order scanning CPU
modes in ISA-insertion order and encodings in insertion order; the recipe
stored at position `i` of the list carries `number = i`, so the numbers form
the contiguous range `0..k-1`; a recipe referenced by no encoding is in
neither the list nor the numbering. -/
theorem C1_recipe_collection (isa : TargetISA)
    (hvalid : ∀ m ∈ isa.cpumodes, ∀ e ∈ m.encodings, e.recipe < isa.recipes.length)
    (hnum : ∀ r ∈ isa.recipes, r.number = none) :
    isa.finish.all_recipes = firstOccurrences isa.recipeRefs
    ∧ (∀ id, id ∈ isa.recipeRefs → isa.finish.all_recipes.count id = 1)
    ∧ (∀ id, id ∉ isa.recipeRefs → id ∉ isa.finish.all_recipes)
    ∧ (∀ i id, isa.finish.all_recipes[i]? = some id →
        ∃ r₀ : EncRecipe, isa.recipes[id]? = some r₀
          ∧ isa.finish.recipes[id]? = some { r₀ with number := some i })
    ∧ (∀ id r, id ∉ isa.recipeRefs → isa.finish.recipes[id]? = some r →
        r.number = none) := by
  have hall : isa.finish.all_recipes = firstOccurrences isa.recipeRefs := by
    rw [finish_closed]
  have hrec : isa.finish.recipes
      = applyRecipeNumbersFrom isa.recipes 0 (firstOccurrences isa.recipeRefs) := by
    rw [finish_closed]
  refine ⟨hall, ?_, ?_, ?_, ?_⟩
  · intro id hid
    rw [hall]
    exact count_firstOccurrences_of_mem hid
  · intro id hid
    rw [hall]
    exact fun hmem => hid (mem_firstOccurrences.mp hmem)
  · intro i id hi
    rw [hall] at hi
    have hmem : id ∈ isa.recipeRefs :=
      mem_firstOccurrences.mp (List.getElem?_mem hi)
    have hlt : id < isa.recipes.length := recipeRefs_lt hvalid hmem
    have hr0 : isa.recipes[id]? = some isa.recipes[id] := List.getElem?_eq_getElem hlt
    refine ⟨isa.recipes[id], hr0, ?_⟩
    rw [hrec, applyRecipeNumbersFrom_getElem?_of_nodup isa.recipes 0
      (nodup_firstOccurrences _) hi, hr0]
    simp
  · intro id r hid hr
    have hnm : id ∉ firstOccurrences isa.recipeRefs :=
      fun hmem => hid (mem_firstOccurrences.mp hmem)
    rw [hrec, applyRecipeNumbersFrom_getElem?_not_mem isa.recipes 0 hnm] at hr
    exact hnum r (List.getElem?_mem hr)

/-- Witness for C1 at the concrete `exampleISA`. -/
theorem C1_witness :
    exampleISA.finish.all_recipes = firstOccurrences exampleISA.recipeRefs
    ∧ (∀ id, id ∈ exampleISA.recipeRefs → exampleISA.finish.all_recipes.count id = 1)
    ∧ (∀ id, id ∉ exampleISA.recipeRefs → id ∉ exampleISA.finish.all_recipes)
    ∧ (∀ i id, exampleISA.finish.all_recipes[i]? = some id →
        ∃ r₀ : EncRecipe, exampleISA.recipes[id]? = some r₀
          ∧ exampleISA.finish.recipes[id]? = some { r₀ with number := some i })
    ∧ (∀ id r, id ∉ exampleISA.recipeRefs → exampleISA.finish.recipes[id]? = some r →
        r.number = none) :=
  C1_recipe_collection exampleISA (by decide) (by decide)

/-- C2: after `finish()`, `all_instps` lists exactly the distinct
instruction predicates attached to at least one encoding, each once,
numbered contiguously `0..m-1` by a counter independent of recipe numbering,
in first-use order scanning CPU modes in ISA-insertion order and encodings
in insertion order; encodings without an instruction predicate contribute
nothing (only attached predicates, `instpRefs`, are collected). -/
theorem C2_predicate_collection (isa : TargetISA) :
    isa.finish.all_instps = firstOccurrences isa.instpRefs
    ∧ (∀ p, p ∈ isa.instpRefs → isa.finish.all_instps.count p = 1)
    ∧ (∀ p, p ∉ isa.instpRefs → p ∉ isa.finish.all_instps)
    ∧ (∀ i p, isa.finish.all_instps[i]? = some p →
        lookupPred isa.finish.predNumbers p = some i) := by
  have hall : isa.finish.all_instps = firstOccurrences isa.instpRefs := by
    rw [finish_closed]
  have hnums : isa.finish.predNumbers
      = applyPredNumbersFrom isa.predNumbers 0 (firstOccurrences isa.instpRefs) := by
    rw [finish_closed]
  refine ⟨hall, ?_, ?_, ?_⟩
  · intro p hp
    rw [hall]
    exact count_firstOccurrences_of_mem hp
  · intro p hp
    rw [hall]
    exact fun hm => hp (mem_firstOccurrences.mp hm)
  · intro i p hi
    rw [hall] at hi
    rw [hnums]
    simpa using applyPredNumbersFrom_lookup_of_nodup isa.predNumbers 0
      (nodup_firstOccurrences _) hi

/-- Witness for C2 at the concrete `exampleISA`. -/
theorem C2_witness :
    exampleISA.finish.all_instps = firstOccurrences exampleISA.instpRefs
    ∧ (∀ p, p ∈ exampleISA.instpRefs → exampleISA.finish.all_instps.count p = 1)
    ∧ (∀ p, p ∉ exampleISA.instpRefs → p ∉ exampleISA.finish.all_instps)
    ∧ (∀ i p, exampleISA.finish.all_instps[i]? = some p →
        lookupPred exampleISA.finish.predNumbers p = some i) :=
  C2_predicate_collection exampleISA

theorem assignBanks_flatten_index (bs : List RegBank) (k : Nat) :
    ((assignBanks bs k).map (fun b => b.classes.map RegClass.index)).flatten
      = (List.range' k ((bs.map (fun b => b.classes.length)).sum)).map some := by
  induction bs generalizing k with
  | nil => simp [assignBanks]
  | cons b bs ih =>
    rw [assignBanks]
    simp only [List.map_cons, List.flatten_cons, RegBank.finish_regclasses,
      assignIndices_length, List.sum_cons]
    rw [assignIndices_map_index, ih, ← List.map_append]
    have h := List.range'_append k b.classes.length
      ((bs.map (fun b => b.classes.length)).sum) 1
    simp only [Nat.one_mul] at h
    rw [h, Nat.add_comm]

theorem assignBanks_getElem? (bs : List RegBank) (k : Nat) {i : Nat} {b : RegBank}
    (h : (assignBanks bs k)[i]? = some b) :
    ∃ b₀, bs[i]? = some b₀
      ∧ b = b₀.finish_regclasses
          (k + (((bs.take i).map (fun x => x.classes.length)).sum)) := by
  induction bs generalizing k i with
  | nil => simp [assignBanks] at h
  | cons b0 bs ih =>
    cases i with
    | zero =>
      rw [assignBanks] at h
      simp only [List.getElem?_cons_zero, Option.some_inj] at h
      exact ⟨b0, by simp, by simp [← h]⟩
    | succ i =>
      rw [assignBanks] at h
      simp only [List.getElem?_cons_succ] at h
      rcases ih _ h with ⟨b₀, hb, he⟩
      refine ⟨b₀, by simpa using hb, ?_⟩
      rw [he]
      congr 1
      simp only [List.take_succ_cons, List.map_cons, List.sum_cons,
        RegBank.finish_regclasses, assignIndices_length]
      omega

/-- C3: `finish()` numbers register classes by iterating banks in
ISA-insertion order, giving each bank a contiguous index block starting at
the running free index (beginning at 0): the flattened class indices across
all banks equal `0, 1, ..., total-1` (hence globally unique, contiguous from
0, with every class of an earlier bank below every class of a later bank),
and the `i`-th bank's classes carry the block starting at the sum of the
class counts of the earlier banks. -/
theorem C3_regclass_numbering (isa : TargetISA) :
    ((isa.finish.regbanks.map (fun b => b.classes.map RegClass.index)).flatten
        = (List.range ((isa.regbanks.map (fun b => b.classes.length)).sum)).map some)
    ∧ (∀ i b, isa.finish.regbanks[i]? = some b →
        b.classes.map RegClass.index
          = (List.range' (((isa.regbanks.take i).map (fun x => x.classes.length)).sum)
              b.classes.length).map some) := by
  have hbanks : isa.finish.regbanks = assignBanks isa.regbanks 0 := by
    rw [finish_closed]
  constructor
  · rw [hbanks, assignBanks_flatten_index, List.range_eq_range']
  · intro i b hb
    rw [hbanks] at hb
    rcases assignBanks_getElem? isa.regbanks 0 hb with ⟨b₀, hb₀, rfl⟩
    simp [RegBank.finish_regclasses, assignIndices_map_index, assignIndices_length]

theorem assignBanks_idem (bs : List RegBank) (k : Nat) :
    assignBanks (assignBanks bs k) k = assignBanks bs k := by
  induction bs generalizing k with
  | nil => rfl
  | cons b bs ih =>
    simp [assignBanks, RegBank.finish_regclasses, assignIndices_idem,
      assignIndices_length, ih]

/-- C4 counterexample: the already-finished `exampleISA` has nonempty
derived collections, yet running `finish()` again reproduces exactly the
same state — contradicting the claim that `finish` is idempotent only when
the derived collections are empty beforehand and that re-entry is not
guaranteed to reproduce the derived collections. -/
theorem C4_counterexample :
    exampleISA.finish.all_recipes ≠ []
    ∧ exampleISA.finish.all_instps ≠ []
    ∧ exampleISA.finish.finish = exampleISA.finish :=
  ⟨by decide, by decide, by decide⟩

/-- C4 amended: every pass of `finish()` recomputes its derived state from
scratch (`all_recipes` and `all_instps` are reinitialized to fresh lists,
recipe and predicate numbers are overwritten with the same values, settings
registration is idempotent, and register-class blocks are reassigned from
index 0), so `finish` is idempotent unconditionally, whatever the derived
collections held beforehand. -/
theorem C4_amended_finish_idempotent (isa : TargetISA) :
    isa.finish.finish = isa.finish := by
  have h1 := finish_closed isa
  have hr : isa.finish.recipeRefs = isa.recipeRefs := by rw [h1]; rfl
  have hi : isa.finish.instpRefs = isa.instpRefs := by rw [h1]; rfl
  have hs : isa.finish.isapRefs = isa.isapRefs := by rw [h1]; rfl
  rw [finish_closed isa.finish, hr, hi, hs, h1]
  dsimp only
  rw [applyRecipeNumbersFrom_idem isa.recipes (nodup_firstOccurrences isa.recipeRefs),
    applyPredNumbersFrom_idem isa.predNumbers (nodup_firstOccurrences isa.instpRefs),
    foldl_number_predicate_idem, assignBanks_idem]

theorem assignBanks_map_name (bs : List RegBank) (k : Nat) :
    (assignBanks bs k).map RegBank.name = bs.map RegBank.name := by
  induction bs generalizing k with
  | nil => rfl
  | cons b bs ih => simp [assignBanks, RegBank.finish_regclasses, ih]

theorem assignBanks_map_clearIndex (bs : List RegBank) (k : Nat) :
    (assignBanks bs k).map (fun b => b.classes.map RegClass.clearIndex)
      = bs.map (fun b => b.classes.map RegClass.clearIndex) := by
  induction bs generalizing k with
  | nil => rfl
  | cons b bs ih =>
    simp [assignBanks, RegBank.finish_regclasses, assignIndices_map_clearIndex, ih]

/-- C10: `finish()` returns the ISA it was invoked on with all
definition-time state unchanged: the name, the instruction groups, the
`cpumodes` list — hence every mode's encodings list and every encoding's
fields — the recipe store up to the `number` fields, and the register banks
up to the class `index` fields.  Its only mutations are the derived
collections (`all_recipes`, `all_instps`), the recipe/predicate numbers,
the settings-side registrations and the per-bank class indices. -/
theorem C10_finish_frame (isa : TargetISA) :
    isa.finish.name = isa.name
    ∧ isa.finish.instruction_groups = isa.instruction_groups
    ∧ isa.finish.cpumodes = isa.cpumodes
    ∧ isa.finish.recipes.map EncRecipe.clearNumber = isa.recipes.map EncRecipe.clearNumber
    ∧ isa.finish.regbanks.map RegBank.name = isa.regbanks.map RegBank.name
    ∧ isa.finish.regbanks.map (fun b => b.classes.map RegClass.clearIndex)
        = isa.regbanks.map (fun b => b.classes.map RegClass.clearIndex) := by
  rw [finish_closed]
  exact ⟨rfl, rfl, rfl, applyRecipeNumbersFrom_map_clearNumber _ _ _,
    assignBanks_map_name _ _, assignBanks_map_clearIndex _ _⟩

/-- C5: constructing an `Encoding` fails with `FormatMismatchError` exactly
when the resolved instruction's format differs from the recipe's format;
every successfully constructed encoding satisfies
`inst.format = recipe.format`; and the invariant is never invalidated
afterwards — encodings are immutable values in this model, and the only
mutating operation, `finish`, leaves every CPU mode's encodings unchanged. -/
theorem C5_format_mismatch (cpumode : String) (inst : InstSpec) (recipeId : Nat)
    (recipe : EncRecipe) (encbits : Nat) (instp isap : Option PredNode) :
    (inst.resolvedInst.format ≠ recipe.format ↔
      Encoding.construct cpumode inst recipeId recipe encbits instp isap
        = Except.error EncodingError.FormatMismatchError)
    ∧ (∀ e, Encoding.construct cpumode inst recipeId recipe encbits instp isap
        = Except.ok e → e.inst.format = recipe.format)
    ∧ (∀ s : TargetISA, s.finish.cpumodes = s.cpumodes) := by
  refine ⟨⟨?_, ?_⟩, ?_, ?_⟩
  · intro h
    simp [Encoding.construct, h]
  · intro h
    by_cases hf : inst.resolvedInst.format = recipe.format
    · exfalso
      simp only [Encoding.construct] at h
      rw [if_neg (not_not_intro hf)] at h
      split at h
      · simp at h
      · simp at h
    · exact hf
  · intro e he
    simp only [Encoding.construct] at he
    split at he
    · exact absurd he (by simp)
    · split at he
      · exact absurd he (by simp)
      · rename_i h1 h2
        rw [← Except.ok.inj he]
        exact not_not.mp h1
  · intro s
    rw [finish_closed]

/-- Witness for C5: encoding a `fmtJump` instruction by a `fmtBinary` recipe
fails with `FormatMismatchError`. -/
theorem C5_witness :
    Encoding.construct "M1" (InstSpec.bound instJump []) 0 recipeR1 0 none none
      = Except.error EncodingError.FormatMismatchError :=
  ((C5_format_mismatch "M1" (InstSpec.bound instJump []) 0 recipeR1 0 none none).1).mp
    (by decide)

/-- C6: constructing an `Encoding` for an instruction with the branch flag
set, from a recipe declaring no branch range, fails with
`BranchRangeError` (the format check precedes it in the source, hence the
format-match hypothesis); every successfully constructed encoding of a
branch instruction uses a recipe with a present branch range. -/
theorem C6_branch_range (cpumode : String) (inst : InstSpec) (recipeId : Nat)
    (recipe : EncRecipe) (encbits : Nat) (instp isap : Option PredNode) :
    (inst.resolvedInst.format = recipe.format →
      inst.resolvedInst.is_branch = true →
      recipe.branch_range = none →
      Encoding.construct cpumode inst recipeId recipe encbits instp isap
        = Except.error EncodingError.BranchRangeError)
    ∧ (∀ e, Encoding.construct cpumode inst recipeId recipe encbits instp isap
        = Except.ok e → e.inst.is_branch = true → recipe.branch_range ≠ none) := by
  constructor
  · intro hf hb hr
    simp only [Encoding.construct]
    rw [if_neg (not_not_intro hf), if_pos ⟨hb, hr⟩]
  · intro e he
    simp only [Encoding.construct] at he
    split at he
    · exact absurd he (by simp)
    · split at he
      · exact absurd he (by simp)
      · rename_i h1 h2
        rw [← Except.ok.inj he]
        intro hb hr
        exact h2 ⟨hb, hr⟩

/-- Witness for C6: encoding the branch `instJump` by the rangeless
`recipeJump0` fails with `BranchRangeError`. -/
theorem C6_witness :
    Encoding.construct "M1" (InstSpec.bound instJump []) 0 recipeJump0 0 none none
      = Except.error EncodingError.BranchRangeError :=
  (C6_branch_range "M1" (InstSpec.bound instJump []) 0 recipeJump0 0 none none).1
    (by decide) (by decide) (by decide)

theorem constraintOk_iff (format : InstructionFormat) (c : OperandConstraint) :
    constraintOk format c = true ↔ ConstraintValid format c := by
  cases c with
  | tied i =>
    simp only [constraintOk, ConstraintValid, Bool.and_eq_true, Bool.or_eq_true,
      decide_eq_true_eq]
    cases h : format.has_value_list <;> simp [h]
  | regClass n => simp [constraintOk, ConstraintValid]
  | register n => simp [constraintOk, ConstraintValid]
  | other n => simp [constraintOk, ConstraintValid]

theorem verify_constraints_ok {format : InstructionFormat} {seq : ConstraintSeq}
    {cs : List OperandConstraint}
    (h : EncRecipe.verify_constraints format seq = Except.ok cs) :
    cs = normalizeSeq seq ∧ ∀ c ∈ cs, ConstraintValid format c := by
  simp only [EncRecipe.verify_constraints] at h
  split at h
  · rename_i hall
    rw [← Except.ok.inj h]
    refine ⟨rfl, ?_⟩
    intro c hc
    exact (constraintOk_iff format c).mp (List.all_eq_true.mp hall c hc)
  · simp at h

theorem verify_constraints_error_eq {format : InstructionFormat} {seq : ConstraintSeq}
    {e : RecipeError}
    (h : EncRecipe.verify_constraints format seq = Except.error e) :
    e = RecipeError.ConstraintError := by
  simp only [EncRecipe.verify_constraints] at h
  split at h
  · simp at h
  · simpa using h.symm

/-- C7: `EncRecipe` construction succeeds only when every constraint in
`ins` and `outs` satisfies the validity condition (integer constraints are
non-negative and, for fixed-arity formats, below `num_value_operands`;
non-integer constraints are register classes or fixed registers) and, for a
format without a variable-length operand list, `len(ins)` equals
`num_value_operands`; every violation of these conditions makes construction
fail with an error. -/
theorem C7_recipe_validation (name : String) (format : InstructionFormat) (size : Int)
    (ins outs : ConstraintSeq) (branch_range : Option (Int × Int))
    (instp isap : Option PredNode) :
    (∀ r, EncRecipe.construct name format size ins outs branch_range instp isap
        = Except.ok r →
      (∀ c ∈ r.ins, ConstraintValid format c)
      ∧ (∀ c ∈ r.outs, ConstraintValid format c)
      ∧ (format.has_value_list = false → r.ins.length = format.num_value_operands)
      ∧ r.ins = normalizeSeq ins ∧ r.outs = normalizeSeq outs)
    ∧ ((¬ ∀ c ∈ normalizeSeq ins, ConstraintValid format c) →
        ∃ err, EncRecipe.construct name format size ins outs branch_range instp isap
          = Except.error err)
    ∧ ((¬ ∀ c ∈ normalizeSeq outs, ConstraintValid format c) →
        ∃ err, EncRecipe.construct name format size ins outs branch_range instp isap
          = Except.error err)
    ∧ (format.has_value_list = false ∧
          (normalizeSeq ins).length ≠ format.num_value_operands →
        ∃ err, EncRecipe.construct name format size ins outs branch_range instp isap
          = Except.error err) := by
  have hok : ∀ r, EncRecipe.construct name format size ins outs branch_range instp isap
      = Except.ok r →
      (∀ c ∈ r.ins, ConstraintValid format c)
      ∧ (∀ c ∈ r.outs, ConstraintValid format c)
      ∧ (format.has_value_list = false → r.ins.length = format.num_value_operands)
      ∧ r.ins = normalizeSeq ins ∧ r.outs = normalizeSeq outs := by
    intro r he
    simp only [EncRecipe.construct] at he
    split at he
    · exact absurd he (by simp)
    · split at he
      · exact absurd he (by simp)
      · split at he
        · exact absurd he (by simp)
        · rename_i hs1 hs2 ins' heq1
          split at he
          · exact absurd he (by simp)
          · rename_i harity
            split at he
            · exact absurd he (by simp)
            · rename_i outs' heq2
              rcases verify_constraints_ok heq1 with ⟨hin, hinv⟩
              rcases verify_constraints_ok heq2 with ⟨hout, houtv⟩
              rw [← Except.ok.inj he]
              refine ⟨hinv, houtv, ?_, hin, hout⟩
              intro hvl
              by_contra hlen
              exact harity ⟨hvl, hlen⟩
  refine ⟨hok, ?_, ?_, ?_⟩
  · intro hbad
    cases hres : EncRecipe.construct name format size ins outs branch_range instp isap with
    | error e => exact ⟨e, rfl⟩
    | ok r =>
      rcases hok r hres with ⟨hinv, _, _, hin, _⟩
      exact absurd (hin ▸ hinv) hbad
  · intro hbad
    cases hres : EncRecipe.construct name format size ins outs branch_range instp isap with
    | error e => exact ⟨e, rfl⟩
    | ok r =>
      rcases hok r hres with ⟨_, houtv, _, _, hout⟩
      exact absurd (hout ▸ houtv) hbad
  · intro hbad
    cases hres : EncRecipe.construct name format size ins outs branch_range instp isap with
    | error e => exact ⟨e, rfl⟩
    | ok r =>
      rcases hok r hres with ⟨_, _, hlen, hin, _⟩
      exact absurd (hin ▸ hlen hbad.1) hbad.2

/-- Witness for C7: a negative tied-operand constraint is rejected. -/
theorem C7_witness :
    ∃ err, EncRecipe.construct "W" fmtBinary 4
        (ConstraintSeq.single (OperandConstraint.tied (-1)))
        (ConstraintSeq.single gprConstraint) none none none
      = Except.error err :=
  (C7_recipe_validation "W" fmtBinary 4
      (ConstraintSeq.single (OperandConstraint.tied (-1)))
      (ConstraintSeq.single gprConstraint) none none none).2.1
    (by
      intro hall
      have hc := hall (OperandConstraint.tied (-1)) (by simp [normalizeSeq])
      exact absurd hc.1 (by decide))

/-- C8: the instruction predicate stored on a successfully constructed
encoding is `AND(recipe.instp, p)` where `p` is the caller-supplied
predicate for a plain bound instruction and
`AND(caller instp, operand-implied predicate)` for an applied form; the
stored ISA predicate is `AND(recipe.isap, caller isap)`; AND with an absent
predicate returns the other operand unchanged. -/
theorem C8_predicate_composition (cpumode : String) (inst : InstSpec) (recipeId : Nat)
    (recipe : EncRecipe) (encbits : Nat) (instp isap : Option PredNode) :
    (∀ e, Encoding.construct cpumode inst recipeId recipe encbits instp isap
        = Except.ok e →
      e.isap = And.combine recipe.isap isap
      ∧ (∀ i tvs, inst = InstSpec.bound i tvs →
          e.instp = And.combine recipe.instp instp)
      ∧ (∀ i tvs dp, inst = InstSpec.apply i tvs dp →
          e.instp = And.combine recipe.instp (And.combine instp dp)))
    ∧ (∀ p, And.combine (some p) none = some p)
    ∧ (∀ p, And.combine none p = p) := by
  refine ⟨?_, fun p => rfl, fun p => rfl⟩
  intro e he
  simp only [Encoding.construct] at he
  split at he
  · exact absurd he (by simp)
  · split at he
    · exact absurd he (by simp)
    · rw [← Except.ok.inj he]
      refine ⟨rfl, ?_, ?_⟩
      · intro i tvs hb
        subst hb
        rfl
      · intro i tvs dp ha
        subst ha
        rfl

/-- Witness for C8 at a concrete applied-form construction with all five
predicates present. -/
theorem C8_witness :
    encodingC8.isap = And.combine recipeC8.isap (some predCs)
    ∧ (∀ i tvs, InstSpec.apply instAdd [tyI32] (some predDp) = InstSpec.bound i tvs →
        encodingC8.instp = And.combine recipeC8.instp (some predCp))
    ∧ (∀ i tvs dp, InstSpec.apply instAdd [tyI32] (some predDp) = InstSpec.apply i tvs dp →
        encodingC8.instp
          = And.combine recipeC8.instp (And.combine (some predCp) dp)) :=
  (C8_predicate_composition "M1" (InstSpec.apply instAdd [tyI32] (some predDp)) 0
      recipeC8 16 (some predCp) (some predCs)).1 encodingC8 rfl

/-- C9: recipe sizes are validated at construction time — a negative size
fails with `SizeError` (and `SizeError` arises exactly from that check), and
every successfully constructed recipe stores the given non-negative size. -/
theorem C9_size_check (name : String) (format : InstructionFormat) (size : Int)
    (ins outs : ConstraintSeq) (branch_range : Option (Int × Int))
    (instp isap : Option PredNode) :
    (size < 0 ↔ EncRecipe.construct name format size ins outs branch_range instp isap
        = Except.error RecipeError.SizeError)
    ∧ (∀ r, EncRecipe.construct name format size ins outs branch_range instp isap
        = Except.ok r → 0 ≤ r.size ∧ r.size = size) := by
  constructor
  · constructor
    · intro h
      simp [EncRecipe.construct, h]
    · intro h
      by_contra hpos
      simp only [EncRecipe.construct, if_neg hpos] at h
      split at h
      · simp at h
      · split at h
        · rename_i e heq
          rw [verify_constraints_error_eq heq] at h
          simp at h
        · split at h
          · simp at h
          · split at h
            · rename_i e heq
              rw [verify_constraints_error_eq heq] at h
              simp at h
            · simp at h
  · intro r he
    simp only [EncRecipe.construct] at he
    split at he
    · exact absurd he (by simp)
    · rename_i hsize
      split at he
      · exact absurd he (by simp)
      · split at he
        · exact absurd he (by simp)
        · split at he
          · exact absurd he (by simp)
          · split at he
            · exact absurd he (by simp)
            · rw [← Except.ok.inj he]
              exact ⟨by simpa using Int.not_lt.mp hsize, rfl⟩

/-- Witness for C9: size `-1` is rejected with `SizeError`. -/
theorem C9_witness :
    EncRecipe.construct "W" fmtBinary (-1)
      (ConstraintSeq.tuple [gprConstraint, gprConstraint])
      (ConstraintSeq.single gprConstraint) none none none
      = Except.error RecipeError.SizeError :=
  ((C9_size_check "W" fmtBinary (-1)
      (ConstraintSeq.tuple [gprConstraint, gprConstraint])
      (ConstraintSeq.single gprConstraint) none none none).1).mp (by decide)

/-- Witness for C3 at the concrete `exampleISA`. -/
theorem C3_witness :
    ((exampleISA.finish.regbanks.map (fun b => b.classes.map RegClass.index)).flatten
        = (List.range ((exampleISA.regbanks.map (fun b => b.classes.length)).sum)).map some)
    ∧ (∀ i b, exampleISA.finish.regbanks[i]? = some b →
        b.classes.map RegClass.index
          = (List.range'
              (((exampleISA.regbanks.take i).map (fun x => x.classes.length)).sum)
              b.classes.length).map some) :=
  C3_regclass_numbering exampleISA

end Cretonne
